import Mathlib

/-!
Verification development for the `TREE` library (`src/lib/include/tree.hpp`):
a plain binary search tree (`BinarySearchTree`) and an AVL specialization
(`AVLTree`) over heap-allocated nodes that carry `key`, a cached `height`,
and `left`/`right`/`parent` pointers.

The embedding models the C++ pointer graph explicitly: a heap is a list of
node records indexed by address, a pointer is `Option Nat` (with `none` for
`nullptr`), and every operation threads the heap.  Dereferencing a null or
freed pointer yields the `fault` outcome; recursion and loops carry explicit
fuel (`fuelOut` when exhausted, never claimed as a behaviour of the code).
-/

namespace TREE

/-- Result of running a translated operation: a value, a memory fault
(null or dangling dereference, which is undefined behaviour in the C++),
or fuel exhaustion of the embedding. -/
inductive Outcome (α : Type) where
  | ok : α → Outcome α
  | fault : Outcome α
  | fuelOut : Outcome α
deriving Repr, DecidableEq

def Outcome.bind : Outcome α → (α → Outcome β) → Outcome β
  | .ok a, f => f a
  | .fault, _ => .fault
  | .fuelOut, _ => .fuelOut

instance : Monad Outcome where
  pure := .ok
  bind := .bind

/-- One heap node, mirroring `BSTNode<Key>`: key, cached subtree height,
and left/right/parent pointers. -/
structure Node where
  key : Int
  height : Int
  left : Option Nat
  right : Option Nat
  parent : Option Nat
deriving Repr, DecidableEq

/-- The node store: a list of records indexed by address; `none` marks a
freed cell. -/
abbrev Heap := List (Option Node)

/-- Read the record at an address (out of range or freed reads give `none`). -/
def hget (h : Heap) (a : Nat) : Option Node := h.getD a none

/-- Overwrite the record at an address. -/
def hset (h : Heap) (a : Nat) (n : Node) : Heap := h.set a (some n)

/-- Free the record at an address (`delete` in the C++). -/
def hfree (h : Heap) (a : Nat) : Heap := h.set a none

/-- A tree object: the heap it owns plus the `root` pointer member. -/
structure Tree where
  heap : Heap
  root : Option Nat
deriving Repr, DecidableEq

/-- The empty tree (`root = nullptr`). -/
def emptyTree : Tree := { heap := [], root := none }

/-- Dereference a pointer, faulting on null or a dangling address. -/
def readN (h : Heap) (p : Option Nat) : Outcome (Nat × Node) :=
  match p with
  | none => .fault
  | some a =>
    match hget h a with
    | none => .fault
    | some n => .ok (a, n)

/-- Write through a pointer (read the record, apply the field update). -/
def writeP (h : Heap) (p : Option Nat) (f : Node → Node) : Outcome Heap := do
  let (a, n) ← readN h p
  pure (hset h a (f n))

/-- Modelled from the spec: the node store constructor `createNode(key, parent)`
(the repository's `node.hpp` is not among the sources) — a new node with
height 1, no children, and the given parent link. -/
def mkNode (key : Int) (parent : Option Nat) : Node :=
  { key := key, height := 1, left := none, right := none, parent := parent }

/-- `BinarySearchTree::getHeight`: `node ? node->height : 0`. -/
def getHeight (h : Heap) (p : Option Nat) : Outcome Int :=
  match p with
  | none => .ok 0
  | some a =>
    match hget h a with
    | none => .fault
    | some n => .ok n.height

/-- `BinarySearchTree::getBalance`: height of left child minus height of
right child, 0 for a null node. -/
def getBalance (h : Heap) (p : Option Nat) : Outcome Int :=
  match p with
  | none => .ok 0
  | some a =>
    match hget h a with
    | none => .fault
    | some n => do
      let hl ← getHeight h n.left
      let hr ← getHeight h n.right
      pure (hl - hr)

/-- `BinarySearchTree::updateHeight`: recompute the cached height from the
children (no write when the node is null). -/
def updateHeight (h : Heap) (p : Option Nat) : Outcome Heap :=
  match p with
  | none => .ok h
  | some a =>
    match hget h a with
    | none => .fault
    | some n => do
      let hl ← getHeight h n.left
      let hr ← getHeight h n.right
      pure (hset h a { n with height := max hl hr + 1 })

/-- `BinarySearchTree::searchNode`: descend by comparisons, returning the
pointer to the node holding the key, or null. -/
def searchNode (h : Heap) : Nat → Option Nat → Int → Outcome (Option Nat)
  | _, none, _ => .ok none
  | 0, some _, _ => .fuelOut
  | fuel + 1, some a, key =>
    match hget h a with
    | none => .fault
    | some n =>
      if n.key = key then .ok (some a)
      else if key < n.key then searchNode h fuel n.left key
      else searchNode h fuel n.right key

/-- `BinarySearchTree::minimumNode`: walk `left` links; note the C++ has no
null check, so a null argument dereferences `node->left` and faults. -/
def minimumNode (h : Heap) : Nat → Option Nat → Outcome Nat
  | _, none => .fault
  | 0, some _ => .fuelOut
  | fuel + 1, some a =>
    match hget h a with
    | none => .fault
    | some n =>
      match n.left with
      | none => .ok a
      | some l => minimumNode h fuel (some l)

/-- `BinarySearchTree::maximumNode`: walk `right` links; null argument
faults exactly as in `minimumNode`. -/
def maximumNode (h : Heap) : Nat → Option Nat → Outcome Nat
  | _, none => .fault
  | 0, some _ => .fuelOut
  | fuel + 1, some a =>
    match hget h a with
    | none => .fault
    | some n =>
      match n.right with
      | none => .ok a
      | some r => maximumNode h fuel (some r)

/-- The parent-walk loop of `BinarySearchTree::successorNode`:
`while (parent != nullptr && parent->right == node) { node = parent; parent = parent->parent; }`
followed by `return (parent == nullptr) ? originNode : parent`. -/
def succClimb (h : Heap) (origin : Nat) : Nat → Nat → Option Nat → Outcome Nat
  | _, _, none => .ok origin
  | 0, _, some _ => .fuelOut
  | fuel + 1, node, some p =>
    match hget h p with
    | none => .fault
    | some pn =>
      if pn.right = some node then succClimb h origin fuel p pn.parent
      else .ok p

/-- `BinarySearchTree::successorNode`: null gives null; a node with a right
subtree yields that subtree's minimum; otherwise climb parent links, and on
reaching a null parent return the original node (the `nullptr protection`
in the source). -/
def successorNode (h : Heap) (fuel : Nat) (node : Option Nat) : Outcome (Option Nat) :=
  match node with
  | none => .ok none
  | some a =>
    match hget h a with
    | none => .fault
    | some n =>
      match n.right with
      | some r => do
        let m ← minimumNode h fuel (some r)
        pure (some m)
      | none => do
        let p ← succClimb h a fuel a n.parent
        pure (some p)

/-- `BinarySearchTree::transplant(u, v)`: rewrite `u`'s parent's link (or the
root) to `v`, then set `v->parent = u->parent` when `v` is non-null. -/
def transplant (t : Tree) (u : Option Nat) (v : Option Nat) : Outcome Tree := do
  let (ua, un) ← readN t.heap u
  let t1 ←
    match un.parent with
    | none => pure { t with root := v }
    | some pa =>
      match hget t.heap pa with
      | none => .fault
      | some pn =>
        if pn.left = some ua then
          pure { t with heap := hset t.heap pa { pn with left := v } }
        else
          pure { t with heap := hset t.heap pa { pn with right := v } }
  match v with
  | none => pure t1
  | some va =>
    match hget t1.heap va with
    | none => .fault
    | some vn => do
      let (_, un2) ← readN t1.heap u
      pure { t1 with heap := hset t1.heap va { vn with parent := un2.parent } }

/-- `BinarySearchTree::rotateLeft(z)`: read `y = z->right` and `T2 = y->left`,
set `z->right = T2`, `z->parent = y`, reparent `T2`, then rewrite whichever
link `y->parent` holds (the source reads `y->parent` after `z->parent = y`
but `y`'s own record was never updated), update heights of `z` then `y`,
and return `y`. -/
def rotateLeft (t : Tree) (z : Option Nat) : Outcome (Tree × Nat) := do
  let (za, zn) ← readN t.heap z
  let (ya, yn) ← readN t.heap zn.right
  let T2 := yn.left
  let h1 ← writeP t.heap (some za) (fun n => { n with right := T2 })
  let h2 ← writeP h1 (some za) (fun n => { n with parent := some ya })
  let h3 ←
    match T2 with
    | none => pure h2
    | some t2 => writeP h2 (some t2) (fun n => { n with parent := some za })
  let (_, yn2) ← readN h3 (some ya)
  let t4 : Tree ←
    match yn2.parent with
    | none => pure ({ heap := h3, root := some ya } : Tree)
    | some pa =>
      match hget h3 pa with
      | none => .fault
      | some pn =>
        if pn.left = some za then
          pure ({ heap := hset h3 pa { pn with left := some ya }, root := t.root } : Tree)
        else
          pure ({ heap := hset h3 pa { pn with right := some ya }, root := t.root } : Tree)
  let h5 ← updateHeight t4.heap (some za)
  let h6 ← updateHeight h5 (some ya)
  pure ({ t4 with heap := h6 }, ya)

/-- `BinarySearchTree::rotateRight(z)`: mirror image of `rotateLeft`. -/
def rotateRight (t : Tree) (z : Option Nat) : Outcome (Tree × Nat) := do
  let (za, zn) ← readN t.heap z
  let (ya, yn) ← readN t.heap zn.left
  let T3 := yn.right
  let h1 ← writeP t.heap (some za) (fun n => { n with left := T3 })
  let h2 ← writeP h1 (some za) (fun n => { n with parent := some ya })
  let h3 ←
    match T3 with
    | none => pure h2
    | some t3 => writeP h2 (some t3) (fun n => { n with parent := some za })
  let (_, yn2) ← readN h3 (some ya)
  let t4 : Tree ←
    match yn2.parent with
    | none => pure ({ heap := h3, root := some ya } : Tree)
    | some pa =>
      match hget h3 pa with
      | none => .fault
      | some pn =>
        if pn.left = some za then
          pure ({ heap := hset h3 pa { pn with left := some ya }, root := t.root } : Tree)
        else
          pure ({ heap := hset h3 pa { pn with right := some ya }, root := t.root } : Tree)
  let h5 ← updateHeight t4.heap (some za)
  let h6 ← updateHeight h5 (some ya)
  pure ({ t4 with heap := h6 }, ya)

/-- `BinarySearchTree::insertNode`: create a node at a null slot (also
maintaining the root when the tree was empty); otherwise descend left on
`key < node->key` and right otherwise (equal keys go right, so duplicates
are inserted), rewriting the child link and its parent pointer on unwind. -/
def BinarySearchTree.insertNode :
    Nat → Tree → Option Nat → Int → Option Nat → Outcome (Tree × Option Nat)
  | _, t, none, key, parent =>
    let addr := t.heap.length
    let h1 := t.heap ++ [some (mkNode key parent)]
    let root1 := if t.root = none then some addr else t.root
    .ok ({ heap := h1, root := root1 }, some addr)
  | 0, _, some _, _, _ => .fuelOut
  | fuel + 1, t, some a, key, _parent =>
    match hget t.heap a with
    | none => .fault
    | some n =>
      if key < n.key then do
        let (t1, c) ← BinarySearchTree.insertNode fuel t n.left key (some a)
        let h2 ← writeP t1.heap (some a) (fun m => { m with left := c })
        let h3 ← writeP h2 c (fun m => { m with parent := some a })
        pure ({ t1 with heap := h3 }, some a)
      else do
        let (t1, c) ← BinarySearchTree.insertNode fuel t n.right key (some a)
        let h2 ← writeP t1.heap (some a) (fun m => { m with right := c })
        let h3 ← writeP h2 c (fun m => { m with parent := some a })
        pure ({ t1 with heap := h3 }, some a)

/-- `BinarySearchTree::deleteNode(root, node)`: nothing happens on a null
`root` parameter; otherwise the node's children are inspected without any
null check on `node` itself (so deleting an absent key from a non-empty
tree dereferences null), and the classic transplant-based removal runs.
The plain tree never frees the node and never rebalances. -/
def BinarySearchTree.deleteNode (fuel : Nat) (t : Tree) (root : Option Nat)
    (node : Option Nat) : Outcome (Tree × Option Nat) :=
  match root with
  | none => .ok (t, root)
  | some _ => do
    let (na, nn) ← readN t.heap node
    if nn.left = none then do
      let t1 ← transplant t node nn.right
      pure (t1, root)
    else if nn.right = none then do
      let t1 ← transplant t node nn.left
      pure (t1, root)
    else do
      let sec ← minimumNode t.heap fuel nn.right
      let (_, secN) ← readN t.heap (some sec)
      let t2 ←
        if secN.parent ≠ some na then do
          let t1 ← transplant t (some sec) secN.right
          let (_, nn2) ← readN t1.heap (some na)
          let h2 ← writeP t1.heap (some sec) (fun m => { m with right := nn2.right })
          let (_, secN2) ← readN h2 (some sec)
          let h3 ← writeP h2 secN2.right (fun m => { m with parent := some sec })
          pure { t1 with heap := h3 }
        else pure t
      let t3 ← transplant t2 node (some sec)
      let (_, nn3) ← readN t3.heap (some na)
      let h4 ← writeP t3.heap (some sec) (fun m => { m with left := nn3.left })
      let (_, secN3) ← readN h4 (some sec)
      let h5 ← writeP h4 secN3.left (fun m => { m with parent := some sec })
      pure ({ t3 with heap := h5 }, root)

/-- `BinarySearchTree::insert`: `root = insertNode(root, key, nullptr)`. -/
def BinarySearchTree.insert (fuel : Nat) (t : Tree) (key : Int) : Outcome Tree := do
  let (t1, r) ← BinarySearchTree.insertNode fuel t t.root key none
  pure { t1 with root := r }

/-- `BinarySearchTree::search`: `searchNode(root, key)`. -/
def BinarySearchTree.search (fuel : Nat) (t : Tree) (key : Int) : Outcome (Option Nat) :=
  searchNode t.heap fuel t.root key

/-- `BinarySearchTree::remove`: `deleteNode(root, searchNode(root, key))`,
return value discarded. -/
def BinarySearchTree.remove (fuel : Nat) (t : Tree) (key : Int) : Outcome Tree := do
  let s ← searchNode t.heap fuel t.root key
  let (t1, _) ← BinarySearchTree.deleteNode fuel t t.root s
  pure t1

/-- `BinarySearchTree::minimum`: `minimumNode(root)` (faults on an empty
tree, since `minimumNode` dereferences its argument unconditionally). -/
def BinarySearchTree.minimum (fuel : Nat) (t : Tree) : Outcome Nat :=
  minimumNode t.heap fuel t.root

/-- `BinarySearchTree::maximum`: `maximumNode(root)`. -/
def BinarySearchTree.maximum (fuel : Nat) (t : Tree) : Outcome Nat :=
  maximumNode t.heap fuel t.root

/-- `BinarySearchTree::successor`: `successorNode(search(key))`. -/
def BinarySearchTree.successor (fuel : Nat) (t : Tree) (key : Int) :
    Outcome (Option Nat) := do
  let s ← searchNode t.heap fuel t.root key
  successorNode t.heap fuel s

/-- `AVLTree::balance(node, key)`: compute the balance factor and pick a
rotation case exactly as the source writes the four `if`s — note that the
branch labelled RR tests `key < node->right->key`, and the final branch
labelled RL repeats that same test (making it unreachable). -/
def AVLTree.balance (t : Tree) (node : Option Nat) (key : Int) :
    Outcome (Tree × Option Nat) := do
  let b ← getBalance t.heap node
  if b > 1 then do
    let (_, n) ← readN t.heap node
    let (_, ln) ← readN t.heap n.left
    if key < ln.key then do
      let (t1, y) ← rotateRight t node
      pure (t1, some y)
    else if ln.key < key then do
      let (t1, y1) ← rotateLeft t n.left
      let h2 ← writeP t1.heap node (fun m => { m with left := some y1 })
      let (t2, y2) ← rotateRight { t1 with heap := h2 } node
      pure (t2, some y2)
    else pure (t, node)
  else if b < -1 then do
    let (_, n) ← readN t.heap node
    let (_, rn) ← readN t.heap n.right
    if key < rn.key then do
      let (t1, y) ← rotateLeft t node
      pure (t1, some y)
    else if key < rn.key then do
      let (t1, y1) ← rotateRight t n.right
      let h2 ← writeP t1.heap node (fun m => { m with right := some y1 })
      let (t2, y2) ← rotateLeft { t1 with heap := h2 } node
      pure (t2, some y2)
    else pure (t, node)
  else pure (t, node)

/-- `AVLTree::insertNode`: like the base insertion but equal keys return the
node unchanged, and each unwind step runs `updateHeight(node)` followed by
`balance(node, key)`. -/
def AVLTree.insertNode :
    Nat → Tree → Option Nat → Int → Option Nat → Outcome (Tree × Option Nat)
  | _, t, none, key, parent =>
    let addr := t.heap.length
    let h1 := t.heap ++ [some (mkNode key parent)]
    let root1 := if t.root = none then some addr else t.root
    .ok ({ heap := h1, root := root1 }, some addr)
  | 0, _, some _, _, _ => .fuelOut
  | fuel + 1, t, some a, key, _parent =>
    match hget t.heap a with
    | none => .fault
    | some n =>
      if key < n.key then do
        let (t1, c) ← AVLTree.insertNode fuel t n.left key (some a)
        let h2 ← writeP t1.heap (some a) (fun m => { m with left := c })
        let h3 ← writeP h2 c (fun m => { m with parent := some a })
        let h4 ← updateHeight h3 (some a)
        AVLTree.balance { t1 with heap := h4 } (some a) key
      else if n.key < key then do
        let (t1, c) ← AVLTree.insertNode fuel t n.right key (some a)
        let h2 ← writeP t1.heap (some a) (fun m => { m with right := c })
        let h3 ← writeP h2 c (fun m => { m with parent := some a })
        let h4 ← updateHeight h3 (some a)
        AVLTree.balance { t1 with heap := h4 } (some a) key
      else pure (t, some a)

/-- The rebalancing loop at the end of `AVLTree::deleteNode`: walk upward
from `cur`, running `updateHeight(cur)` then `cur = balance(cur, cur->key)`,
updating the root whenever the balanced node is parentless, then stepping
to `cur->parent`. -/
def AVLTree.rebalanceLoop : Nat → Tree → Option Nat → Outcome Tree
  | _, t, none => .ok t
  | 0, _, some _ => .fuelOut
  | fuel + 1, t, some c => do
    let h1 ← updateHeight t.heap (some c)
    let (_, cn) ← readN h1 (some c)
    let (t2, cur2) ← AVLTree.balance { t with heap := h1 } (some c) cn.key
    let (_, c2n) ← readN t2.heap cur2
    let t3 := if c2n.parent = none then { t2 with root := cur2 } else t2
    AVLTree.rebalanceLoop fuel t3 c2n.parent

/-- `AVLTree::deleteNode(root, node)`: null node is a no-op; otherwise the
transplant-based removal (recording `rebalanceStart`), freeing the node,
then the upward rebalancing loop starting from `rebalanceStart` (or the
deleted node's original parent), and finally `return this->root`. -/
def AVLTree.deleteNode (fuel : Nat) (t : Tree) (root : Option Nat)
    (node : Option Nat) : Outcome (Tree × Option Nat) :=
  match node with
  | none => .ok (t, root)
  | some na =>
    match hget t.heap na with
    | none => .fault
    | some nn => do
      let parent := nn.parent
      let (t1, rebalanceStart) ←
        if nn.left = none ∧ nn.right = none then do
          let rb := nn.parent
          let t1 ← transplant t (some na) none
          pure ({ t1 with heap := hfree t1.heap na }, rb)
        else if nn.left = none then do
          let rb := nn.right
          let t1 ← transplant t (some na) nn.right
          pure ({ t1 with heap := hfree t1.heap na }, rb)
        else if nn.right = none then do
          let rb := nn.left
          let t1 ← transplant t (some na) nn.left
          pure ({ t1 with heap := hfree t1.heap na }, rb)
        else do
          let sec ← minimumNode t.heap fuel nn.right
          let (_, secN) ← readN t.heap (some sec)
          if secN.parent ≠ some na then do
            let rb := secN.parent
            let t1 ← transplant t (some sec) secN.right
            let (_, nn2) ← readN t1.heap (some na)
            let h2 ← writeP t1.heap (some sec) (fun m => { m with right := nn2.right })
            let (_, secN2) ← readN h2 (some sec)
            let h3 ←
              match secN2.right with
              | none => pure h2
              | some sr => writeP h2 (some sr) (fun m => { m with parent := some sec })
            let t2 ← transplant { t1 with heap := h3 } (some na) (some sec)
            let (_, nn3) ← readN t2.heap (some na)
            let h4 ← writeP t2.heap (some sec) (fun m => { m with left := nn3.left })
            let (_, secN3) ← readN h4 (some sec)
            let h5 ←
              match secN3.left with
              | none => pure h4
              | some sl => writeP h4 (some sl) (fun m => { m with parent := some sec })
            pure ({ t2 with heap := hfree h5 na }, rb)
          else do
            let rb := some sec
            let t2 ← transplant t (some na) (some sec)
            let (_, nn3) ← readN t2.heap (some na)
            let h4 ← writeP t2.heap (some sec) (fun m => { m with left := nn3.left })
            let (_, secN3) ← readN h4 (some sec)
            let h5 ←
              match secN3.left with
              | none => pure h4
              | some sl => writeP h4 (some sl) (fun m => { m with parent := some sec })
            pure ({ t2 with heap := hfree h5 na }, rb)
      let cur := match rebalanceStart with | none => parent | some c => some c
      let t3 ← AVLTree.rebalanceLoop fuel t1 cur
      pure (t3, t3.root)

/-- `AVLTree::insert`: `root = insertNode(root, key, nullptr)`. -/
def AVLTree.insert (fuel : Nat) (t : Tree) (key : Int) : Outcome Tree := do
  let (t1, r) ← AVLTree.insertNode fuel t t.root key none
  pure { t1 with root := r }

/-- `AVLTree::search`: `searchNode(root, key)`. -/
def AVLTree.search (fuel : Nat) (t : Tree) (key : Int) : Outcome (Option Nat) :=
  searchNode t.heap fuel t.root key

/-- `AVLTree::remove`: `deleteNode(root, searchNode(root, key))`, return
value discarded. -/
def AVLTree.remove (fuel : Nat) (t : Tree) (key : Int) : Outcome Tree := do
  let s ← searchNode t.heap fuel t.root key
  let (t1, _) ← AVLTree.deleteNode fuel t t.root s
  pure t1

/-- One public mutating operation, for stating claims about operation
sequences. -/
inductive Op where
  | ins : Int → Op
  | del : Int → Op
deriving Repr, DecidableEq

/-- Run a sequence of insert/remove operations on an `AVLTree`, starting
from the given state. -/
def AVLTree.runOps (fuel : Nat) (t : Tree) : List Op → Outcome Tree
  | [] => .ok t
  | op :: rest => do
    let t1 ←
      match op with
      | .ins k => AVLTree.insert fuel t k
      | .del k => AVLTree.remove fuel t k
    AVLTree.runOps fuel t1 rest

/-- Run a sequence of insert/remove operations on a plain
`BinarySearchTree`. -/
def BinarySearchTree.runOps (fuel : Nat) (t : Tree) : List Op → Outcome Tree
  | [] => .ok t
  | op :: rest => do
    let t1 ←
      match op with
      | .ins k => BinarySearchTree.insert fuel t k
      | .del k => BinarySearchTree.remove fuel t k
    BinarySearchTree.runOps fuel t1 rest

/-- The `AVLTree(std::initializer_list)` constructor: sequential inserts
into an initially empty tree. -/
def AVLTree.fromList (fuel : Nat) (l : List Int) : Outcome Tree :=
  AVLTree.runOps fuel emptyTree (l.map Op.ins)

/-- The `BinarySearchTree(std::initializer_list)` constructor: sequential
inserts into an initially empty tree. -/
def BinarySearchTree.fromList (fuel : Nat) (l : List Int) : Outcome Tree :=
  BinarySearchTree.runOps fuel emptyTree (l.map Op.ins)

/-!
## A structural view of the heap

To state universal properties we extract the child-link structure reachable
from a pointer as an inductive binary tree of addresses and keys.  `viewT`
succeeds exactly when that structure is a finite tree of live nodes within
the given fuel.
-/

/-- The extracted shape of a subtree: a leaf (null pointer) or a node with
its address, key, and the views of its children. -/
inductive BT where
  | leaf : BT
  | node : BT → Nat → Int → BT → BT
deriving Repr, DecidableEq

/-- Extract the child structure reachable from a pointer. -/
def viewT (h : Heap) : Nat → Option Nat → Option BT
  | _, none => some .leaf
  | 0, some _ => none
  | fuel + 1, some a =>
    (hget h a).bind fun n =>
      (viewT h fuel n.left).bind fun l =>
        (viewT h fuel n.right).bind fun r =>
          some (.node l a n.key r)

/-- In-order key list of a view. -/
def BT.keys : BT → List Int
  | .leaf => []
  | .node l _ k r => l.keys ++ k :: r.keys

/-- BST ordering of a view: keys on the left are smaller, keys on the right
larger, recursively. -/
def BT.ordered : BT → Bool
  | .leaf => true
  | .node l _ k r =>
    (l.keys.all fun x => decide (x < k)) && (r.keys.all fun x => decide (k < x))
      && l.ordered && r.ordered

/-- Parent/child consistency of the viewed structure: every viewed node's
`parent` field points at the node it was reached from (`par` for the top). -/
def pcAt (h : Heap) (par : Option Nat) : BT → Bool
  | .leaf => true
  | .node l a _ r =>
    (match hget h a with
     | none => false
     | some n => decide (n.parent = par)) && pcAt h (some a) l && pcAt h (some a) r

/-- Address of the rightmost node of a view rooted at address `a`. -/
def rlast (a : Nat) : BT → Nat
  | .leaf => a
  | .node _ b _ r => rlast b r

/-- Key of the rightmost node of a view whose root holds key `k`. -/
def kLast (k : Int) : BT → Int
  | .leaf => k
  | .node _ _ k2 r => kLast k2 r

/-- Length of the right spine of a view. -/
def BT.rspineLen : BT → Nat
  | .leaf => 0
  | .node _ _ _ r => r.rspineLen + 1

theorem viewT_leaf_inv (h : Heap) :
    ∀ (fuel : Nat) (p : Option Nat), viewT h fuel p = some .leaf → p = none := by
  intro fuel p hv
  cases p with
  | none => rfl
  | some a =>
    cases fuel with
    | zero => simp [viewT] at hv
    | succ f =>
      simp only [viewT] at hv
      cases hh : hget h a with
      | none => rw [hh] at hv; simp at hv
      | some n =>
        rw [hh, Option.some_bind] at hv
        cases hl : viewT h f n.left <;> cases hr : viewT h f n.right <;>
          rw [hl] at hv <;> simp [hr] at hv

theorem viewT_node_inv (h : Heap) (fuel : Nat) (p : Option Nat) (l : BT) (a : Nat)
    (k : Int) (r : BT) (hv : viewT h fuel p = some (.node l a k r)) :
    p = some a ∧ ∃ f n, fuel = f + 1 ∧ hget h a = some n ∧ n.key = k ∧
      viewT h f n.left = some l ∧ viewT h f n.right = some r := by
  cases p with
  | none =>
    cases fuel <;> simp [viewT] at hv
  | some b =>
    cases fuel with
    | zero => simp [viewT] at hv
    | succ f =>
      simp only [viewT] at hv
      cases hh : hget h b with
      | none => rw [hh] at hv; simp at hv
      | some n =>
        rw [hh, Option.some_bind] at hv
        cases hl : viewT h f n.left with
        | none => rw [hl] at hv; simp at hv
        | some l2 =>
          cases hr : viewT h f n.right with
          | none => rw [hl] at hv; simp [hr] at hv
          | some r2 =>
            rw [hl] at hv
            simp only [hr, Option.some_bind, Option.some.injEq, BT.node.injEq] at hv
            obtain ⟨h1, h2, h3, h4⟩ := hv
            subst h1; subst h2; subst h3; subst h4
            exact ⟨rfl, f, n, rfl, hh, rfl, hl, hr⟩

theorem viewT_rspineLen (h : Heap) :
    ∀ (fuel : Nat) (p : Option Nat) (bt : BT),
      viewT h fuel p = some bt → bt.rspineLen ≤ fuel := by
  intro fuel
  induction fuel with
  | zero =>
    intro p bt hv
    cases bt with
    | leaf => exact Nat.le_refl 0
    | node l a k r =>
      obtain ⟨_, f, n, hf, _⟩ := viewT_node_inv h 0 p l a k r hv
      exact absurd hf (by simp)
  | succ f ih =>
    intro p bt hv
    cases bt with
    | leaf => exact Nat.zero_le _
    | node l a k r =>
      obtain ⟨hpa, f2, n, hf, hn, hk, hvl, hvr⟩ := viewT_node_inv h (f + 1) p l a k r hv
      have hf2 : f2 = f := by omega
      subst hf2
      have := ih n.right r hvr
      simp only [BT.rspineLen]
      omega

theorem searchNode_miss (h : Heap) :
    ∀ (fuel : Nat) (p : Option Nat) (bt : BT) (key : Int),
      viewT h fuel p = some bt → key ∉ bt.keys →
      searchNode h fuel p key = .ok none := by
  intro fuel
  induction fuel with
  | zero =>
    intro p bt key hv _
    cases p with
    | none => rfl
    | some a => simp [viewT] at hv
  | succ f ih =>
    intro p bt key hv hk
    cases p with
    | none => rfl
    | some a =>
      cases bt with
      | leaf => exact absurd (viewT_leaf_inv h (f + 1) (some a) hv) (by simp)
      | node l b k r =>
        obtain ⟨hpa, f2, n, hf, hn, hkey, hvl, hvr⟩ :=
          viewT_node_inv h (f + 1) (some a) l b k r hv
        have hab : b = a := by injection hpa.symm
        subst hab
        have hf2 : f = f2 := by omega
        subst hf2
        simp only [BT.keys, List.mem_append, List.mem_cons] at hk
        push_neg at hk
        obtain ⟨hkl, hkk, hkr⟩ := hk
        simp only [searchNode, hn]
        rw [if_neg (by rw [hkey]; exact fun hc => hkk hc.symm)]
        by_cases hlt : key < n.key
        · rw [if_pos hlt]; exact ih n.left l key hvl hkl
        · rw [if_neg hlt]; exact ih n.right r key hvr hkr


theorem maximumNode_view (h : Heap) :
    ∀ (fuel : Nat) (p : Option Nat) (l : BT) (a : Nat) (k : Int) (r : BT),
      viewT h fuel p = some (.node l a k r) →
      maximumNode h fuel p = .ok (rlast a r) := by
  intro fuel
  induction fuel with
  | zero =>
    intro p l a k r hv
    obtain ⟨_, f, n, hf, _⟩ := viewT_node_inv h 0 p l a k r hv
    exact absurd hf (by simp)
  | succ f ih =>
    intro p l a k r hv
    obtain ⟨hpa, f2, n, hf, hn, hk, hvl, hvr⟩ := viewT_node_inv h (f + 1) p l a k r hv
    subst hpa
    have hf2 : f = f2 := by omega
    subst hf2
    cases r with
    | leaf =>
      have hnr : n.right = none := viewT_leaf_inv h f n.right hvr
      simp [maximumNode, hn, hnr, rlast]
    | node l2 b k2 r2 =>
      obtain ⟨hb, f3, nb, hf3, hnb, hk2, hvl2, hvr2⟩ :=
        viewT_node_inv h f n.right l2 b k2 r2 hvr
      have hrec := ih n.right l2 b k2 r2 hvr
      rw [hb] at hrec
      simp only [maximumNode, hn, hb, rlast]
      exact hrec

theorem kLast_mem : ∀ (r : BT) (k : Int), kLast k r = k ∨ kLast k r ∈ r.keys := by
  intro r
  induction r with
  | leaf => intro k; exact Or.inl rfl
  | node l b k2 r2 ihl ihr =>
    intro k
    refine Or.inr ?_
    simp only [kLast, BT.keys, List.mem_append, List.mem_cons]
    rcases ihr k2 with hc | hc
    · exact Or.inr (Or.inl hc)
    · exact Or.inr (Or.inr hc)

theorem searchNode_findsMax (h : Heap) :
    ∀ (fuel : Nat) (p : Option Nat) (l : BT) (a : Nat) (k : Int) (r : BT),
      viewT h fuel p = some (.node l a k r) →
      (BT.node l a k r).ordered = true →
      searchNode h fuel p (kLast k r) = .ok (some (rlast a r)) := by
  intro fuel
  induction fuel with
  | zero =>
    intro p l a k r hv _
    obtain ⟨_, f, n, hf, _⟩ := viewT_node_inv h 0 p l a k r hv
    exact absurd hf (by simp)
  | succ f ih =>
    intro p l a k r hv hord
    obtain ⟨hpa, f2, n, hf, hn, hk, hvl, hvr⟩ := viewT_node_inv h (f + 1) p l a k r hv
    subst hpa
    have hf2 : f = f2 := by omega
    subst hf2
    cases r with
    | leaf =>
      simp only [kLast, rlast, searchNode, hn]
      rw [if_pos hk]
    | node l2 b k2 r2 =>
      have hord2 : ((l.keys.all fun x => decide (x < k)) &&
          ((BT.node l2 b k2 r2).keys.all fun x => decide (k < x)) &&
          l.ordered && (BT.node l2 b k2 r2).ordered) = true := hord
      simp only [Bool.and_eq_true] at hord2
      obtain ⟨⟨⟨_, hallB⟩, _⟩, hordr⟩ := hord2
      have hall := List.all_eq_true.mp hallB
      have hmem : kLast k2 r2 ∈ (BT.node l2 b k2 r2).keys := by
        simp only [BT.keys, List.mem_append, List.mem_cons]
        rcases kLast_mem r2 k2 with hc | hc
        · exact Or.inr (Or.inl hc)
        · exact Or.inr (Or.inr hc)
      have hlt : k < kLast k2 r2 := of_decide_eq_true (hall _ hmem)
      simp only [kLast, rlast, searchNode, hn]
      rw [if_neg (by rw [hk]; omega), if_neg (by rw [hk]; omega)]
      exact ih n.right l2 b k2 r2 hvr hordr

theorem rlast_rec (h : Heap) :
    ∀ (r : BT) (fuel : Nat) (a : Nat) (n : Node),
      hget h a = some n → viewT h fuel n.right = some r →
      ∃ mn, hget h (rlast a r) = some mn ∧ mn.right = none := by
  intro r
  induction r with
  | leaf =>
    intro fuel a n hn hvr
    exact ⟨n, hn, viewT_leaf_inv h fuel n.right hvr⟩
  | node l2 b k2 r2 ihl ihr =>
    intro fuel a n hn hvr
    obtain ⟨hb, f3, nb, hf3, hnb, hk2, hvl2, hvr2⟩ :=
      viewT_node_inv h fuel n.right l2 b k2 r2 hvr
    simp only [rlast]
    exact ihr f3 b nb hnb hvr2

theorem succClimb_none (h : Heap) (origin : Nat) (fc : Nat) (nd : Nat) :
    succClimb h origin fc nd none = .ok origin := by
  cases fc <;> rfl

theorem succClimb_spine (h : Heap) (origin : Nat) :
    ∀ (r : BT) (fuel : Nat) (a : Nat) (n : Node) (mn : Node),
      hget h a = some n → viewT h fuel n.right = some r →
      pcAt h (some a) r = true →
      hget h (rlast a r) = some mn →
      ∀ fc : Nat, r.rspineLen ≤ fc →
        succClimb h origin fc (rlast a r) mn.parent =
          succClimb h origin (fc - r.rspineLen) a n.parent := by
  intro r
  induction r with
  | leaf =>
    intro fuel a n mn hn hvr _ hmn fc _
    simp only [rlast] at hmn
    rw [hn] at hmn
    injection hmn with hmn
    subst hmn
    simp [BT.rspineLen, rlast]
  | node l2 b k2 r2 ihl ihr =>
    intro fuel a n mn hn hvr hpc hmn fc hfc
    obtain ⟨hb, f3, nb, hf3, hnb, hk2, hvl2, hvr2⟩ :=
      viewT_node_inv h fuel n.right l2 b k2 r2 hvr
    simp only [pcAt, hnb, Bool.and_eq_true, decide_eq_true_eq] at hpc
    obtain ⟨⟨hpar, hpcl⟩, hpcr⟩ := hpc
    simp only [rlast] at hmn ⊢
    simp only [BT.rspineLen] at hfc ⊢
    have hstep := ihr f3 b nb mn hnb hvr2 hpcr hmn fc (by omega)
    rw [hstep]
    have hpos : r2.rspineLen < fc := by omega
    have hfc2 : fc - BT.rspineLen r2 = (fc - (BT.rspineLen r2 + 1)) + 1 := by omega
    rw [hfc2, hpar]
    simp only [succClimb, hn]
    rw [if_pos hb]

/-- C9 (amended): for every non-empty tree whose reachable structure is a
BST-ordered view with consistent parent links (root parentless),
`successor` applied to the key of the tree's maximum node returns that
maximum node itself — not an absent result. -/
theorem successor_of_maximum (t : Tree) (fuel : Nat) (l : BT) (a : Nat) (k : Int)
    (r : BT) (hv : viewT t.heap fuel t.root = some (.node l a k r))
    (hord : (BT.node l a k r).ordered = true)
    (hpc : pcAt t.heap none (.node l a k r) = true) :
    BinarySearchTree.maximum fuel t = .ok (rlast a r) ∧
    BinarySearchTree.successor fuel t (kLast k r) = .ok (some (rlast a r)) := by
  obtain ⟨hpa, f, n, hf, hn, hk, hvl, hvr⟩ :=
    viewT_node_inv t.heap fuel t.root l a k r hv
  constructor
  · exact maximumNode_view t.heap fuel t.root l a k r hv
  · have hsearch := searchNode_findsMax t.heap fuel t.root l a k r hv hord
    obtain ⟨mn, hmn, hmnr⟩ := rlast_rec t.heap r f a n hn hvr
    simp only [pcAt, hn, Bool.and_eq_true, decide_eq_true_eq] at hpc
    obtain ⟨⟨hpar, _⟩, hpcr⟩ := hpc
    have hlen : r.rspineLen ≤ fuel := by
      have := viewT_rspineLen t.heap f n.right r hvr
      omega
    have hclimb := succClimb_spine t.heap (rlast a r) r f a n mn hn hvr hpcr hmn fuel hlen
    rw [hpar] at hclimb
    have hclimb2 : succClimb t.heap (rlast a r) fuel (rlast a r) mn.parent =
        .ok (rlast a r) := by
      rw [hclimb]; exact succClimb_none t.heap (rlast a r) (fuel - r.rspineLen) a
    show (searchNode t.heap fuel t.root (kLast k r)).bind
        (fun s => successorNode t.heap fuel s) = .ok (some (rlast a r))
    rw [hsearch]
    show successorNode t.heap fuel (some (rlast a r)) = .ok (some (rlast a r))
    simp only [successorNode, hmn, hmnr]
    show (succClimb t.heap (rlast a r) fuel (rlast a r) mn.parent).bind
        (fun p => .ok (some p)) = .ok (some (rlast a r))
    rw [hclimb2]
    rfl

/-- C10: for every tree whose reachable structure is a well-formed view and
every key not present in it, `successor(key)` returns the absent (null)
result without faulting; the `search`/`successorNode` path performs no
writes, so the tree is left unchanged. -/
theorem successor_absent_key (t : Tree) (fuel : Nat) (bt : BT) (key : Int)
    (hv : viewT t.heap fuel t.root = some bt) (hk : key ∉ bt.keys) :
    BinarySearchTree.successor fuel t key = .ok none := by
  have hsearch := searchNode_miss t.heap fuel t.root bt key hv hk
  show (searchNode t.heap fuel t.root key).bind
      (fun s => successorNode t.heap fuel s) = .ok none
  rw [hsearch]
  rfl

/-!
## Concrete states and the remaining claim analyses
-/

/-- Balance factor at the root of the resulting tree of an operation run. -/
def balanceAtRoot (r : Outcome Tree) : Outcome Int :=
  match r with
  | .ok t => getBalance t.heap t.root
  | .fault => .fault
  | .fuelOut => .fuelOut

/-- Run `search` on the resulting tree of an operation run. -/
def searchAfter (fuel : Nat) (r : Outcome Tree) (key : Int) : Outcome (Option Nat) :=
  match r with
  | .ok t => AVLTree.search fuel t key
  | .fault => .fault
  | .fuelOut => .fuelOut

/-- Run `successor` on the resulting tree of an operation run. -/
def successorAfter (fuel : Nat) (r : Outcome Tree) (key : Int) :
    Outcome (Option Nat) :=
  match r with
  | .ok t => BinarySearchTree.successor fuel t key
  | .fault => .fault
  | .fuelOut => .fuelOut

/-- A two-node tree `z` (key 1, address 0) with right child `y` (key 2,
address 1): the smallest input on which `rotateLeft(z)` is meaningful. -/
def rotLDemo : Tree :=
  { heap := [some { key := 1, height := 2, left := none, right := some 1, parent := none },
             some { key := 2, height := 1, left := none, right := none, parent := some 0 }],
    root := some 0 }

/-- A two-node tree `z` (key 2, address 0) with left child `y` (key 1,
address 1): the smallest input on which `rotateRight(z)` is meaningful. -/
def rotRDemo : Tree :=
  { heap := [some { key := 2, height := 2, left := some 1, right := none, parent := none },
             some { key := 1, height := 1, left := none, right := none, parent := some 0 }],
    root := some 0 }

/-- The right chain 10 → 20 → 30 with correct cached heights: a node with
balance factor −2 whose right subtree is right-heavy (the textbook RR
configuration at the root). -/
def chain3 : Tree :=
  { heap := [some { key := 10, height := 3, left := none, right := some 1, parent := none },
             some { key := 20, height := 2, left := none, right := some 2, parent := some 0 },
             some { key := 30, height := 1, left := none, right := none, parent := some 1 }],
    root := some 0 }

/-- A well-formed two-node tree (root 10 at address 0, right child 20 at
address 1) used to instantiate the universal successor theorems. -/
def maxDemo : Tree :=
  { heap := [some { key := 10, height := 2, left := none, right := some 1, parent := none },
             some { key := 20, height := 1, left := none, right := none, parent := some 0 }],
    root := some 0 }

/-- C1: the operation sequence insert 10, insert 20, insert 30 on an initially
empty `AVLTree` leaves the root with balance factor −2 — the AVL balance
invariant claimed to hold after every operation is violated (no rotation
fires because `balance`'s right-heavy branches test `key < node->right->key`). -/
theorem avl_ops_break_balance_invariant :
    balanceAtRoot (AVLTree.runOps 20 emptyTree [.ins 10, .ins 20, .ins 30]) =
      .ok (-2) := by decide

/-- C2: neither rotation attaches `z` as a child of `y`.  On the two-node
subtrees, `rotateLeft(z)` returns `y` whose record still has no children
(`z` is only linked by its own dangling `parent` field, and `z`'s `right`
still points at `y`), and `rotateRight(z)` additionally overwrites `z`'s
`right` child field with `y`; in both cases `y.parent` is not rewritten to
`z`'s former parent and the root pointer is not updated. -/
theorem rotations_do_not_attach_pivot :
    rotateLeft rotLDemo (some 0) =
      .ok ({ heap := [some { key := 1, height := 2, left := none, right := some 1, parent := some 1 },
                      some { key := 2, height := 1, left := none, right := none, parent := some 0 }],
             root := some 0 }, 1) ∧
    rotateRight rotRDemo (some 0) =
      .ok ({ heap := [some { key := 2, height := 2, left := none, right := some 1, parent := some 1 },
                      some { key := 1, height := 1, left := none, right := none, parent := some 0 }],
             root := some 0 }, 1) := by decide

/-- C3: inserting 10, 20, 30 in order into an empty `AVLTree` yields the
unrotated right chain rooted at key 10 (heights 3, 2, 1), not the balanced
tree with root 20 and children 10 and 30 that the claim expects. -/
theorem avl_insert_10_20_30_chain :
    AVLTree.fromList 20 [10, 20, 30] =
      .ok { heap := [some { key := 10, height := 3, left := none, right := some 1, parent := none },
                     some { key := 20, height := 2, left := none, right := some 2, parent := some 0 },
                     some { key := 30, height := 1, left := none, right := none, parent := some 1 }],
            root := some 0 } := by decide

/-- C4: on the right-right-heavy chain (`balance = −2` at the root, reference
key 30 greater than the right child's key 20) `balance` performs no rotation
at all and returns the state unchanged; and it does perform the single left
rotation when the key 15 is *smaller* than the right child's key — the exact
opposite of the claimed RR condition. -/
theorem balance_single_left_rotation_condition :
    AVLTree.balance chain3 (some 0) 30 = .ok (chain3, some 0) ∧
    AVLTree.balance chain3 (some 0) 15 =
      .ok ({ heap := [some { key := 10, height := 3, left := none, right := some 1, parent := some 1 },
                      some { key := 20, height := 2, left := none, right := some 2, parent := some 0 },
                      some { key := 30, height := 1, left := none, right := none, parent := some 1 }],
             root := some 0 }, some 1) := by decide

/-- C5: after the insert-only sequence 10, 30, 20 on an empty `AVLTree`
(no removals), `search(10)` reports absent: the broken left rotation dropped
the node holding 10 from the tree reachable from the root. -/
theorem avl_search_loses_inserted_key :
    searchAfter 20 (AVLTree.runOps 20 emptyTree [.ins 10, .ins 30, .ins 20]) 10 =
      .ok none := by decide

/-- C6: inserting key 5 twice into an empty plain `BinarySearchTree` is not a
no-op: the second insert allocates a second node with key 5 and links it as
the right child of the first (the base-class `insertNode` has no equality
case, so duplicates go right). -/
theorem bst_duplicate_insert_adds_node :
    BinarySearchTree.runOps 20 emptyTree [.ins 5, .ins 5] =
      .ok { heap := [some { key := 5, height := 1, left := none, right := some 1, parent := none },
                     some { key := 5, height := 1, left := none, right := none, parent := some 0 }],
            root := some 0 } := by decide

/-- C7: removing the absent key 2 from the plain `BinarySearchTree` holding
only key 1 is not a silent no-op: `deleteNode` dereferences the null pointer
returned by the search (`node->left` with `node == nullptr`) and faults. -/
theorem bst_remove_absent_key_faults :
    BinarySearchTree.runOps 20 emptyTree [.ins 1, .del 2] = .fault := by decide

/-- C8: `minimum()` and `maximum()` on the empty tree dereference the null
root inside `minimumNode`/`maximumNode` and fault instead of yielding an
explicit empty/absent result. -/
theorem empty_min_max_fault :
    BinarySearchTree.minimum 20 emptyTree = .fault ∧
    BinarySearchTree.maximum 20 emptyTree = .fault := by decide

/-- C9 (counterexample): in the `AVLTree` built from [10, 20] the maximum key
is 20 stored at address 1, and `successor(20)` returns that very node
(`some 1`) rather than the absent result the claim requires. -/
theorem successor_of_max_returns_node :
    successorAfter 20 (AVLTree.fromList 20 [10, 20]) 20 = .ok (some 1) ∧
    successorAfter 20 (AVLTree.fromList 20 [10, 20]) 20 ≠ .ok none := by decide

/-- Witness for `successor_of_maximum` at a concrete two-node tree. -/
theorem successor_of_maximum_witness :
    BinarySearchTree.maximum 3 maxDemo = .ok 1 ∧
    BinarySearchTree.successor 3 maxDemo 20 = .ok (some 1) :=
  successor_of_maximum maxDemo 3 .leaf 0 10 (.node .leaf 1 20 .leaf)
    (by decide) (by decide) (by decide)

/-- Witness for `successor_absent_key` at a concrete two-node tree and the
absent key 15. -/
theorem successor_absent_key_witness :
    BinarySearchTree.successor 3 maxDemo 15 = .ok none :=
  successor_absent_key maxDemo 3 (.node .leaf 0 10 (.node .leaf 1 20 .leaf)) 15
    (by decide) (by decide)

end TREE
